import Mathlib

/-!
# Verification of the prompt dependency resolution and execution engine

Shallow embedding of the core of the `local-image-analyst` repository:
the streaming decoder of `src/services/api.ts`, the response coercion of
`fetchAnalysis` / `fetchBboxChildAnalysis`, and the execution engine of
`src/store.ts` (`runSinglePrompt`, `handlePromptCompletion`,
`runSingleAnalysisFlow`, `runPendingAnalysis`, `deletePrompt`).

JavaScript strings are modelled as `List Char`; JavaScript numbers as the
inductive `JSNum` (an explicit not-a-number value or a rational), so that the
strict comparison semantics against `NaN` are captured without floating point.
The remote model endpoint is modelled by an `Oracle` supplying the raw reply
text (or a failure) for each request the engine issues.
-/

/-! ## JavaScript string primitives (as used by the source) -/

/-- Whitespace predicate used by the JS `trim` family (ASCII fragment). -/
def wsChar (c : Char) : Bool := c.isWhitespace

/-- JS `String.prototype.trim`: drop whitespace from both ends. -/
def jsTrim (l : List Char) : List Char :=
  ((l.dropWhile wsChar).reverse.dropWhile wsChar).reverse

/-- JS `String.prototype.trimStart`. -/
def jsTrimStart (l : List Char) : List Char := l.dropWhile wsChar

/-- JS `String.prototype.toLowerCase` (ASCII fragment). -/
def jsLower (l : List Char) : List Char := l.map Char.toLower

/-- JS `String.prototype.indexOf` for a pattern: index of the leftmost
occurrence, `none` when absent. -/
def indexOfSub (pat : List Char) : List Char → Option Nat
  | [] => if pat.isEmpty then some 0 else none
  | c :: rest =>
    if pat.isPrefixOf (c :: rest) then some 0
    else (indexOfSub pat rest).map (· + 1)

/-- JS `String.prototype.includes`. -/
def jsIncludes (l pat : List Char) : Bool := (indexOfSub pat l).isSome

/-! ## Streaming decoder (src/services/api.ts, `fetchAnalysisStream`, lines 151-212)

The source threads a three-valued `parsingState` and an accumulation buffer
through the incoming token deltas. -/

inductive DecPhase
  | initialPhase
  | skippingThink
  | streaming
  deriving DecidableEq, Repr

structure DecState where
  phase : DecPhase
  acc : List Char
  deriving DecidableEq, Repr

def thinkOpen : List Char := "<think>".toList

def thinkClose : List Char := "</think>".toList

/-- Process one non-empty delta exactly as the source loop body does.
Returns the next state paired with the deltas emitted for this input.
An empty delta is skipped by the source (`if (!delta) continue`). -/
def stepDecoder (st : DecState) (delta : List Char) : DecState × List (List Char) :=
  if delta.isEmpty then (st, [])
  else
    match st.phase with
    | .initialPhase =>
      let acc := st.acc ++ delta
      if (jsTrim acc).length > 0 then
        if thinkOpen.isPrefixOf (jsTrim acc) then
          match indexOfSub thinkClose acc with
          | some i =>
            let remaining := acc.drop (i + thinkClose.length)
            (⟨.streaming, []⟩, if remaining.isEmpty then [] else [jsTrimStart remaining])
          | none => (⟨.skippingThink, acc⟩, [])
        else (⟨.streaming, []⟩, [acc])
      else (⟨.initialPhase, acc⟩, [])
    | .skippingThink =>
      let acc := st.acc ++ delta
      match indexOfSub thinkClose acc with
      | some i =>
        let remaining := acc.drop (i + thinkClose.length)
        (⟨.streaming, []⟩, if remaining.isEmpty then [] else [jsTrimStart remaining])
      | none => (⟨.skippingThink, acc⟩, [])
    | .streaming => (st, [delta])

/-- Run the decoder over a whole delta sequence, collecting every emitted
visible delta in order. -/
def runDecoder (deltas : List (List Char)) : List (List Char) :=
  (deltas.foldl
    (fun (p : DecState × List (List Char)) d =>
      let r := stepDecoder p.1 d
      (r.1, p.2 ++ r.2))
    (⟨.initialPhase, []⟩, [])).2

/-- The concatenation of all emitted visible deltas. -/
def decodedText (deltas : List String) : List Char :=
  (runDecoder (deltas.map String.toList)).foldr (· ++ ·) []

/-! ## Thinking-markup stripping and response coercion (src/services/api.ts)

`stripThinking` models the one-shot regex removal at line 43:
the leftmost `<think>`, lazily up to the first following `</think>`, then
greedy trailing whitespace, removed, and the result trimmed.  When the
pattern does not match, only `.trim()` applies. -/

def stripThinking (l : List Char) : List Char :=
  match indexOfSub thinkOpen l with
  | none => jsTrim l
  | some i =>
    match indexOfSub thinkClose (l.drop (i + thinkOpen.length)) with
    | none => jsTrim l
    | some j =>
      jsTrim (l.take i ++
        jsTrimStart ((l.drop (i + thinkOpen.length)).drop (j + thinkClose.length)))

/-- Global removal of code-fence markup: api.ts line 261 replaces, globally,
every occurrence of three backticks followed by `json` and an optional
newline, or of three bare backticks, by the empty string, then trims. -/
def stripFencesAux : Nat → List Char → List Char
  | 0, l => l
  | _ + 1, [] => []
  | fuel + 1, c :: rest =>
    let l := c :: rest
    if ("```json\n".toList).isPrefixOf l then stripFencesAux fuel (l.drop 8)
    else if ("```json".toList).isPrefixOf l then stripFencesAux fuel (l.drop 7)
    else if ("```".toList).isPrefixOf l then stripFencesAux fuel (l.drop 3)
    else c :: stripFencesAux fuel rest

def stripFences (l : List Char) : List Char := jsTrim (stripFencesAux l.length l)

/-! ## Numeric extraction: `content.match` with pattern `-?\d+(\.\d+)?`, then `parseFloat` -/

/-- Match the body `\d+(\.\d+)?` at the start of the list (greedy). -/
def matchDigitsDot : List Char → Option (List Char)
  | [] => none
  | c :: rest =>
    if c.isDigit then
      let ip := (c :: rest).takeWhile Char.isDigit
      match (c :: rest).dropWhile Char.isDigit with
      | '.' :: r2 =>
        match r2 with
        | d :: _ => if d.isDigit then some (ip ++ '.' :: r2.takeWhile Char.isDigit) else some ip
        | [] => some ip
      | _ => some ip
    else none

/-- Match `-?\d+(\.\d+)?` anchored at the current position (a leading minus
must be followed by a digit, else the optional sign backtracks and the digit
match fails on the minus itself). -/
def matchNumAt : List Char → Option (List Char)
  | [] => none
  | c :: rest =>
    if c = '-' then (matchDigitsDot rest).map ('-' :: ·)
    else matchDigitsDot (c :: rest)

/-- Leftmost match of `-?\d+(\.\d+)?` in the content. -/
def findNumeral : List Char → Option (List Char)
  | [] => none
  | c :: rest =>
    match matchNumAt (c :: rest) with
    | some m => some m
    | none => findNumeral rest

def natOfDigits (l : List Char) : Nat :=
  l.foldl (fun n c => n * 10 + (c.toNat - '0'.toNat)) 0

def parseFloatMag (l : List Char) : ℚ :=
  let ip := l.takeWhile Char.isDigit
  match l.dropWhile Char.isDigit with
  | '.' :: fp =>
    let fd := fp.takeWhile Char.isDigit
    (natOfDigits ip : ℚ) + (natOfDigits fd : ℚ) / (10 : ℚ) ^ fd.length
  | _ => (natOfDigits ip : ℚ)

def parseFloatNumeral : List Char → ℚ
  | '-' :: rest => - parseFloatMag rest
  | l => parseFloatMag l

/-! ## JavaScript numbers

`JSNum` carries an explicit not-a-number value; both strict comparisons
against `NaN` are false, as in JavaScript. -/

inductive JSNum
  | nan
  | num (q : ℚ)
  deriving DecidableEq, Repr

/-- JS strict `>`. -/
def jsGt : JSNum → JSNum → Bool
  | .num a, .num b => decide (b < a)
  | _, _ => false

/-- JS strict `<`. -/
def jsLt : JSNum → JSNum → Bool
  | .num a, .num b => decide (a < b)
  | _, _ => false

/-- `scoreMatch ? parseFloat(scoreMatch[0]) : NaN` (api.ts lines 264-266). -/
def extractNumber (content : List Char) : JSNum :=
  match findNumeral content with
  | some m => .num (parseFloatNumeral m)
  | none => .nan

/-! ## Data model (src/types.ts) -/

inductive ResultType
  | text | bbox | score | number | yesNo | category | json
  deriving DecidableEq, Repr

inductive Condition | yes | no
  deriving DecidableEq, Repr

inductive ScoreOp | above | below
  deriving DecidableEq, Repr

/-- A detection `{ box, label }`; coordinates are JS numbers. -/
structure BBoxDet where
  box : List JSNum
  label : String
  deriving DecidableEq, Repr

structure Prompt where
  id : String
  text : List Char
  type : ResultType
  scoreRange : Option (JSNum × JSNum) := none
  categories : Option (List String) := none
  jsonSchema : Option (List Char) := none
  parentId : Option String := none
  condition : Option Condition := none
  scoreConditionOperator : Option ScoreOp := none
  scoreConditionValue : Option JSNum := none
  deriving DecidableEq, Repr

inductive Status | loading | success | error
  deriving DecidableEq, Repr

/-- `resultData` of a fan-out child outcome is `string | number | null`. -/
inductive ChildData
  | noData
  | strD (s : List Char)
  | numD (n : JSNum)
  deriving DecidableEq, Repr

structure BboxChildResult where
  parentBox : BBoxDet
  resultData : ChildData
  deriving DecidableEq, Repr

/-- The `data` field of an `AnalysisResult`, discriminated by result type.
`jsonD` keeps the parsed JSON opaque (its raw text); the engine never
inspects it. -/
inductive RData
  | noData
  | strD (s : List Char)
  | numD (n : JSNum)
  | boxesD (bs : List BBoxDet)
  | childD (rs : List BboxChildResult)
  | jsonD (v : List Char)
  deriving DecidableEq, Repr

structure AnalysisResult where
  promptId : String
  status : Status
  data : RData
  error : Option (List Char) := none
  deriving DecidableEq, Repr

/-! ## Result history store (per selected image)

`results[imageId]` in the store is an object keyed by prompt id; it is
modelled as an association list keyed by prompt id.  `getHist` mirrors
`results[imageId]?.[promptId] || []`; `setHist` mirrors the spread-update
`{ ...results[imageId], [promptId]: h }` (replace in place, or append a new
key). -/

def Results : Type := String → List AnalysisResult

def emptyResults : Results := fun _ => []

/-- `results[imageId]?.[promptId] || []`: an absent key reads as the empty
history. -/
def getHist (res : Results) (pid : String) : List AnalysisResult := res pid

/-- `{ ...results[imageId], [promptId]: h }`. -/
def setHist (res : Results) (pid : String) (h : List AnalysisResult) : Results :=
  fun q => if q = pid then h else res q

/-- `delete newImageResults[id]` for each id in the list (a deleted key reads
back as the empty history). -/
def removeHists (res : Results) (ids : List String) : Results :=
  fun q => if ids.contains q then [] else res q

/-! ## The model endpoint oracle

The remote model is an opaque service.  `reply pid` is the outcome of the
one single-shot POST the engine issues for prompt `pid`: `.ok raw` is
`choices[0].message.content`, `.error msg` stands for any thrown failure
(transport error, non-ok HTTP status, or token-limit truncation — the source
throws in all three cases and `runSinglePrompt` catches the exception).
`streamEvents pid` is the SSE frame sequence for a streaming (Text) request.
`bboxReply cid i` is the outcome of the per-object call number `i` issued for
fan-out child `cid`.  `jsonParse` models the platform `JSON.parse` (plus the
unchecked cast to the expected shape); it is a parameter because it is not
repository code. -/

inductive StreamEvent
  | deltaEv (s : List Char)
  | finishLengthEv
  deriving DecidableEq, Repr

structure Oracle where
  reply : String → Except (List Char) (List Char)
  streamEvents : String → List StreamEvent
  bboxReply : String → Nat → Except (List Char) (List Char)
  jsonParse : List Char → Option RData

/-- Drive the decoder over the SSE events, as the `for await` loop of
`runSinglePrompt` does: a `finish_reason === "length"` frame makes the
stream yield an error chunk, which the store turns into a thrown error;
otherwise the visible deltas accumulate into `finalResultData`. -/
def runStreamAux : DecState → List Char → List StreamEvent → Except (List Char) (List Char)
  | _, accum, [] => .ok accum
  | st, accum, e :: rest =>
    match e with
    | .finishLengthEv => .error "Response was truncated due to token limit.".toList
    | .deltaEv d =>
      let r := stepDecoder st d
      runStreamAux r.1 (accum ++ r.2.foldr (· ++ ·) []) rest

def runStream (events : List StreamEvent) : Except (List Char) (List Char) :=
  runStreamAux ⟨.initialPhase, []⟩ [] events

/-- String form of the `ResultType` enum values (src/types.ts). -/
def resultTypeStr : ResultType → List Char
  | .text => "text".toList
  | .bbox => "bbox".toList
  | .score => "score".toList
  | .number => "number".toList
  | .yesNo => "yes/no".toList
  | .category => "category".toList
  | .json => "json".toList

/-- Response coercion of the single-shot path (api.ts lines 257-269). -/
def coerceSingleShot (p : Prompt) (jsonParse : List Char → Option RData)
    (raw : List Char) : Except (List Char) RData :=
  let content := stripThinking raw
  if p.type = .bbox ∨ p.type = .json then
    match jsonParse (stripFences content) with
    | some v => .ok v
    | none => .error ("Failed to parse JSON for ".toList ++ resultTypeStr p.type ++ ".".toList)
  else if p.type = .score ∨ p.type = .number then
    .ok (.numD (extractNumber content))
  else
    .ok (.strD content)

/-! ## Engine state

Beyond the per-image result store, the embedding counts issued model
requests (`networkCalls`) and logs the prompt id each request was issued for
(`callLog`); both are observational instrumentation of the `fetch` call
sites, used to state the claims about who gets (re-)executed. -/

structure EngineState where
  results : Results
  networkCalls : Nat
  callLog : List String

def loadingResult (pid : String) : AnalysisResult :=
  { promptId := pid, status := .loading, data := .noData }

/-- `prev.slice(0, -1).concat(r)`. -/
def sliceConcat (h : List AnalysisResult) (r : AnalysisResult) : List AnalysisResult :=
  h.dropLast ++ [r]

/-- `runSinglePrompt` (store.ts lines 511-680), non-follow-up path, for the
selected image.  It appends a `loading` entry, issues exactly one model
request, and replaces the last history entry with the terminal result.
The engine model is sequential, so the abort branch (which returns
`undefined` without touching history) never fires here; the cancellation
race of claim C6 is modelled separately below. -/
def runSinglePromptM (o : Oracle) (p : Prompt) (st : EngineState) :
    EngineState × Option AnalysisResult :=
  let hist1 := getHist st.results p.id ++ [loadingResult p.id]
  let st1 : EngineState :=
    { results := setHist st.results p.id hist1
      networkCalls := st.networkCalls + 1
      callLog := st.callLog ++ [p.id] }
  match p.type with
  | .text =>
    match runStream (o.streamEvents p.id) with
    | .ok txt =>
      let r : AnalysisResult := { promptId := p.id, status := .success, data := .strD (jsTrim txt) }
      ({ st1 with results := setHist st1.results p.id (sliceConcat hist1 r) }, some r)
    | .error e =>
      let r : AnalysisResult := { promptId := p.id, status := .error, data := .noData, error := some e }
      ({ st1 with results := setHist st1.results p.id (sliceConcat hist1 r) }, some r)
  | _ =>
    match o.reply p.id with
    | .ok raw =>
      match coerceSingleShot p o.jsonParse raw with
      | .ok d =>
        let r : AnalysisResult := { promptId := p.id, status := .success, data := d }
        ({ st1 with results := setHist st1.results p.id (sliceConcat hist1 r) }, some r)
      | .error e =>
        let r : AnalysisResult := { promptId := p.id, status := .error, data := .noData, error := some e }
        ({ st1 with results := setHist st1.results p.id (sliceConcat hist1 r) }, some r)
    | .error e =>
      let r : AnalysisResult := { promptId := p.id, status := .error, data := .noData, error := some e }
      ({ st1 with results := setHist st1.results p.id (sliceConcat hist1 r) }, some r)

/-! ## Child eligibility filters (store.ts lines 686-711) -/

/-- YesNo block, line 689. -/
def yesNoChildren (prompts : List Prompt) (pid : String) (met : Condition)
    (res : Results) : List Prompt :=
  prompts.filter (fun c =>
    decide (c.parentId = some pid) && decide (c.condition = some met) &&
      decide (getHist res c.id = []))

/-- Score block, lines 695-704. -/
def scoreChildren (prompts : List Prompt) (pid : String) (score : JSNum)
    (res : Results) : List Prompt :=
  prompts.filter (fun c =>
    decide (c.parentId = some pid) && decide (getHist res c.id = []) &&
      (match c.scoreConditionOperator, c.scoreConditionValue with
       | some op, some v =>
         (decide (op = .above) && jsGt score v) || (decide (op = .below) && jsLt score v)
       | _, _ => false))

/-- BoundingBox block, line 710: every pending direct child, no condition. -/
def bboxChildren (prompts : List Prompt) (pid : String) (res : Results) : List Prompt :=
  prompts.filter (fun c =>
    decide (c.parentId = some pid) && decide (getHist res c.id = []))

/-- `fetchBboxChildAnalysis` (api.ts lines 274-323): one single-shot call per
detected object; a failure is caught and encoded as an error-marker string in
`resultData`, never a thrown exception and never `null`. -/
def fetchBboxChildModel (o : Oracle) (c : Prompt) (i : Nat) (bb : BBoxDet) : BboxChildResult :=
  match o.bboxReply c.id i with
  | .ok raw =>
    let content := stripThinking raw
    if c.type = .score ∨ c.type = .number then
      { parentBox := bb, resultData := .numD (extractNumber content) }
    else
      { parentBox := bb, resultData := .strD content }
  | .error msg => { parentBox := bb, resultData := .strD ("Error: ".toList ++ msg) }

/-- Run a list of conditional children sequentially through `runSinglePrompt`
(the `for ... of childrenToRun` loops at lines 690 and 705; completions of the
children are not themselves cascaded).  Also returns the executed ids. -/
def runChildren (o : Oracle) (children : List Prompt) (st : EngineState) :
    EngineState × List String :=
  children.foldl
    (fun acc c => ((runSinglePromptM o c acc.1).1, acc.2 ++ [c.id]))
    (st, [])

/-- Fan-out execution of one pending child (store.ts lines 718-728): the
child's whole history is replaced by a singleton `loading` entry with an empty
placeholder array, one call is issued per detected object, and the joined
outcomes (the source's `filter(r => r !== null)` keeps everything, since the
per-object call never resolves to null) replace it as a singleton `success`
entry. -/
def processBboxChild (o : Oracle) (bs : List BBoxDet) (st : EngineState)
    (c : Prompt) : EngineState :=
  let loadEntry : AnalysisResult := { promptId := c.id, status := .loading, data := .childD [] }
  let st1 : EngineState := { st with results := setHist st.results c.id [loadEntry] }
  let finalData := bs.enum.map (fun e => fetchBboxChildModel o c e.1 e.2)
  let doneEntry : AnalysisResult := { promptId := c.id, status := .success, data := .childD finalData }
  { results := setHist st1.results c.id [doneEntry]
    networkCalls := st1.networkCalls + bs.length
    callLog := st1.callLog ++ bs.map (fun _ => c.id) }

/-- `handlePromptCompletion` (store.ts lines 682-730).  Returns the updated
state and the ids of the child prompts that were executed (one entry per
child prompt started).  The three blocks are guarded by the parent's result
type, so at most one fires. -/
def handlePromptCompletionM (prompts : List Prompt) (o : Oracle) (p : Prompt)
    (result : AnalysisResult) (st : EngineState) : EngineState × List String :=
  let step1 : EngineState × List String :=
    if p.type = .yesNo ∧ result.status = .success then
      match result.data with
      | .strD s =>
        let answer := jsTrim (jsLower s)
        let met : Condition := if jsIncludes answer "yes".toList then .yes else .no
        runChildren o (yesNoChildren prompts p.id met st.results) st
      | _ => (st, [])
    else (st, [])
  let step2 : EngineState × List String :=
    if p.type = .score ∧ result.status = .success then
      match result.data with
      | .numD score =>
        let r := runChildren o (scoreChildren prompts p.id score step1.1.results) step1.1
        (r.1, step1.2 ++ r.2)
      | _ => step1
    else step1
  if p.type = .bbox ∧ result.status = .success then
    match result.data with
    | .boxesD bs =>
      if bs.length > 0 then
        let children := bboxChildren prompts p.id step2.1.results
        if children.isEmpty then step2
        else
          (children.foldl (fun acc c => processBboxChild o bs acc c) step2.1,
           step2.2 ++ children.map (·.id))
      else step2
    | _ => step2
  else step2

/-! ## Flows (store.ts lines 360-457) -/

def childIdsOf (prompts : List Prompt) (pid : String) : List String :=
  (prompts.filter (fun q => decide (q.parentId = some pid))).map (·.id)

/-- Transitive descendants (`findDescendants`, store.ts lines 364-373),
computed breadth-first with fuel; on a forest, `prompts.length + 1` rounds
suffice to reach everything. -/
def descendantIdsAux (prompts : List Prompt) : Nat → List String → List String
  | 0, _ => []
  | _ + 1, [] => []
  | fuel + 1, pid :: todo =>
    let kids := childIdsOf prompts pid
    kids ++ descendantIdsAux prompts fuel (todo ++ kids)

def descendantIds (prompts : List Prompt) (pid : String) : List String :=
  descendantIdsAux prompts (prompts.length + 1) [pid]

/-- `runSingleAnalysisFlow`: clear the full descendant set's histories, run
the prompt itself, then evaluate its children. -/
def runSingleAnalysisFlowM (prompts : List Prompt) (o : Oracle) (p : Prompt)
    (st : EngineState) : EngineState :=
  let desc := descendantIds prompts p.id
  let st1 := if desc.isEmpty then st
    else { st with results := removeHists st.results desc }
  let r := runSinglePromptM o p st1
  match r.2 with
  | some result => (handlePromptCompletionM prompts o p result r.1).1
  | none => r.1

/-- Keep the first prompt for each id (JS `Map` insertion-order semantics for
`tasksToRun`). -/
def dedupByIdAux : List Prompt → List String → List Prompt
  | [], _ => []
  | p :: rest, seen =>
    if seen.contains p.id then dedupByIdAux rest seen
    else p :: dedupByIdAux rest (p.id :: seen)

def dedupById (ps : List Prompt) : List Prompt := dedupByIdAux ps []

/-- The task list `runPendingAnalysis` builds (store.ts lines 416-439):
pending independent prompts in array order, then, for every pending child
whose parent exists and has a latest `success` result, that parent. -/
def pendingTasks (prompts : List Prompt) (res : Results) : List Prompt :=
  let allPending := prompts.filter (fun p => decide (getHist res p.id = []))
  let indep := allPending.filter (fun p => decide (p.parentId = none))
  let parentsOfPending := allPending.filterMap (fun c =>
    match c.parentId with
    | some pid =>
      match prompts.find? (fun q => decide (q.id = pid)) with
      | some pp =>
        match (getHist res pid).getLast? with
        | some lastR => if lastR.status = .success then some pp else none
        | none => none
      | none => none
    | none => none)
  dedupById (indep ++ parentsOfPending)

/-- `runPendingAnalysis` (store.ts lines 409-457) for the selected image. -/
def runPendingAnalysisM (prompts : List Prompt) (o : Oracle) (st : EngineState) :
    EngineState :=
  let allPending := prompts.filter (fun p => decide (getHist st.results p.id = []))
  if allPending.isEmpty then st
  else
    let tasks := pendingTasks prompts st.results
    if tasks.isEmpty then st
    else tasks.foldl (fun acc t => runSingleAnalysisFlowM prompts o t acc) st

/-! ## Prompt deletion (store.ts lines 238-271)

Multi-image: `results` keyed by image id, then by prompt id.  The model takes
the confirmed path (the `window.confirm` collaborator accepted). -/

def AllResults : Type := String → Results

def getHistAll (allRes : AllResults) (img pid : String) : List AnalysisResult :=
  getHist (allRes img) pid

def deletePromptM (prompts : List Prompt) (allRes : AllResults) (pid : String) :
    List Prompt × AllResults :=
  let children := prompts.filter (fun p => decide (p.parentId = some pid))
  let idsToDelete := pid :: children.map (·.id)
  (prompts.filter (fun p => !(idsToDelete.contains p.id)),
   fun img q => if idsToDelete.contains q then [] else allRes img q)

/-! ## Cancellation race (claim C6)

`runSinglePrompt` keeps one `AbortController` per `(image, prompt)` pair and
calls `controller.abort('New request initiated')` on the previous in-flight
attempt (store.ts lines 516-518).  Per the WHATWG DOM/fetch standards,
aborting with an explicit argument makes the pending fetch promise reject
with that argument itself — here a plain string, not a DOMException — so the
catch clause's test `(error as Error).name === 'AbortError'` (line 663)
evaluates `.name` on a string, getting `undefined`, and the rejection is
handled by the generic error branch (lines 664-667).

The race is modelled as the interleaved sequence of history operations the
two attempts perform on the single JS thread: each attempt appends its
`loading` entry before its fetch, and finishes by `slice(0,-1).concat(...)`;
the aborted attempt's rejection is processed as soon as the abort fires,
before the second attempt's network response arrives. -/

/-- A JavaScript value thrown/rejected with: either a DOMException-like
object carrying `name`/`message`, or a plain string. -/
inductive JsErrorValue
  | domException (nm : List Char) (msg : List Char)
  | strValue (s : List Char)
  deriving DecidableEq, Repr

/-- `(error as Error).name`: a plain string has no `name` property. -/
def jsErrorName : JsErrorValue → Option (List Char)
  | .domException nm _ => some nm
  | .strValue _ => none

/-- `(error as Error).message`: a plain string has no `message` property. -/
def jsErrorMessage : JsErrorValue → Option (List Char)
  | .domException _ m => some m
  | .strValue _ => none

/-- `controller.abort(arg)`: with an explicit argument the signal's abort
reason is that very value; with no argument it is an `AbortError`
DOMException.  The source always passes `'New request initiated'`. -/
def abortReasonOf (arg : Option (List Char)) : JsErrorValue :=
  match arg with
  | some s => .strValue s
  | none => .domException "AbortError".toList "signal is aborted without reason".toList

/-- One history mutation step of `runSinglePrompt` for a fixed
`(image, prompt)` pair. -/
inductive HistOp
  | appendLoading (pid : String)
  | finishSuccess (pid : String) (d : RData)
  | catchRejection (pid : String) (reason : JsErrorValue)
  deriving Repr

/-- Apply one history operation as the source does: append a `loading` entry
(line 592); on success replace the last entry (line 659); in the catch
clause, an `AbortError`-named rejection returns without touching history
(line 663), anything else replaces the last entry by an `error` result
(lines 665-666). -/
def applyHistOp (h : List AnalysisResult) : HistOp → List AnalysisResult
  | .appendLoading pid => h ++ [loadingResult pid]
  | .finishSuccess pid d => sliceConcat h { promptId := pid, status := .success, data := d }
  | .catchRejection pid reason =>
    if jsErrorName reason = some "AbortError".toList then h
    else sliceConcat h
      { promptId := pid, status := .error, data := .noData, error := jsErrorMessage reason }

/-- Two back-to-back `runOne` calls for the same pair: attempt 1 appends its
loading entry and starts its fetch; attempt 2 aborts attempt 1 and appends
its own loading entry; attempt 1's rejection (reason: the string passed to
`abort`) is processed; attempt 2's response arrives and it finishes. -/
def raceTrace (d : RData) : List HistOp :=
  [ .appendLoading "p",
    .appendLoading "p",
    .catchRejection "p" (abortReasonOf (some "New request initiated".toList)),
    .finishSuccess "p" d ]

def raceHistory (d : RData) : List AnalysisResult :=
  (raceTrace d).foldl applyHistOp []

/-! ## Fixtures for witnesses -/

def oracleA : Oracle :=
  { reply := fun pid => if pid = "np" then .ok "maybe".toList else .ok "Yes".toList
    streamEvents := fun _ => [.deltaEv "fine".toList]
    bboxReply := fun _ i => if i = 0 then .error "boom".toList else .ok "a cat".toList
    jsonParse := fun _ => none }

def stEmpty : EngineState := { results := emptyResults, networkCalls := 0, callLog := [] }

def wYesP : Prompt := { id := "yp", text := [], type := .yesNo }

def wChildY : Prompt :=
  { id := "cy", text := [], type := .text, parentId := some "yp", condition := some .yes }

def wChildN : Prompt :=
  { id := "cn", text := [], type := .text, parentId := some "yp", condition := some .no }

def wYesR : AnalysisResult :=
  { promptId := "yp", status := .success, data := .strD "Sure, YES!".toList }

/-! ## Claim C4 (Score condition resolution, strict comparisons) -/

def wScoreP : Prompt := { id := "sp", text := [], type := .score }

def wAbove : Prompt :=
  { id := "ca", text := [], type := .text, parentId := some "sp",
    scoreConditionOperator := some .above, scoreConditionValue := some (.num 3) }

def wBelow : Prompt :=
  { id := "cb", text := [], type := .text, parentId := some "sp",
    scoreConditionOperator := some .below, scoreConditionValue := some (.num 3) }

def wScoreR : AnalysisResult :=
  { promptId := "sp", status := .success, data := .numD (.num 5) }

/-! ## Fan-out lemmas (claims C3, C9) -/

/-- The singleton `success` entry a fan-out child ends with. -/
def bboxDone (o : Oracle) (bs : List BBoxDet) (c : Prompt) : AnalysisResult :=
  { promptId := c.id, status := .success,
    data := .childD (bs.enum.map (fun e => fetchBboxChildModel o c e.1 e.2)) }

def wBoxP : Prompt := { id := "bp", text := [], type := .bbox }

def wBoxChild : Prompt := { id := "bc", text := [], type := .text, parentId := some "bp" }

def wDet1 : BBoxDet := { box := [.num 1, .num 2, .num 3, .num 4], label := "cat" }

def wDet2 : BBoxDet := { box := [.num 5, .num 6, .num 7, .num 8], label := "dog" }

def wBoxR : AnalysisResult :=
  { promptId := "bp", status := .success, data := .boxesD [wDet1, wDet2] }

/-! ## Claim C10 (no numeral: NaN success, and NaN triggers no child) -/

def wNumP : Prompt := { id := "np", text := [], type := .number }

def wNanR : AnalysisResult :=
  { promptId := "sp", status := .success, data := .numD .nan }

/-! ## Claim C7 (deletion cascade) -/

def wDelP : Prompt := { id := "dp", text := [], type := .yesNo }

def wDelC : Prompt :=
  { id := "dc", text := [], type := .yesNo, parentId := some "dp", condition := some .yes }

def wDelG : Prompt :=
  { id := "dg", text := [], type := .text, parentId := some "dc", condition := some .yes }

def wDelEntry (pid : String) : AnalysisResult :=
  { promptId := pid, status := .success, data := .strD "x".toList }

def wDelRes : AllResults := fun img q =>
  if img = "img1" then
    (if q = "dp" ∨ q = "dc" ∨ q = "dg" then [wDelEntry q] else [])
  else []

def wDelC2 : Prompt :=
  { id := "dc2", text := [], type := .number, parentId := some "dp", condition := some .no }

/-! ## Claim C8 (second pending run: idempotence) -/

def oracleYes : Oracle :=
  { reply := fun _ => .ok "Yes".toList
    streamEvents := fun _ => [.deltaEv "fine".toList]
    bboxReply := fun _ _ => .ok "ok".toList
    jsonParse := fun _ => none }

def c8run1 : EngineState := runPendingAnalysisM [wYesP, wChildN] oracleYes stEmpty

def c8run2 : EngineState := runPendingAnalysisM [wYesP, wChildN] oracleYes c8run1

def stFull : EngineState :=
  { results := setHist emptyResults "yp" [wYesR], networkCalls := 0, callLog := [] }

/-! # Theorems -/
theorem indexOfSub_isSome_iff (pat l : List Char) :
    (indexOfSub pat l).isSome = true ↔ pat <:+: l := by
  induction l with
  | nil =>
    by_cases h : pat = []
    · subst h; simp [indexOfSub]
    · simp [indexOfSub, List.isEmpty_iff, h, List.infix_nil]
  | cons c rest ih =>
    by_cases h : pat.isPrefixOf (c :: rest)
    · have hp : pat <+: c :: rest := List.isPrefixOf_iff_prefix.mp h
      simp [indexOfSub, h, hp.isInfix]
    · have hnp : ¬ pat <+: c :: rest := fun hp => h <| List.isPrefixOf_iff_prefix.mpr hp
      simp [indexOfSub, h, List.infix_cons_iff, ih, hnp]

theorem jsIncludes_iff (l pat : List Char) : jsIncludes l pat = true ↔ pat <:+: l :=
  indexOfSub_isSome_iff pat l

/-- A pattern made of non-whitespace characters survives a left `dropWhile` of
whitespace: any occurrence cannot begin inside the dropped prefix. -/
theorem isInfix_dropWhile_of_isInfix {pat l : List Char}
    (hne : pat ≠ []) (hws : ∀ c ∈ pat, wsChar c = false)
    (h : pat <:+: l) : pat <:+: l.dropWhile wsChar := by
  induction l with
  | nil =>
    rw [List.infix_nil] at h
    exact absurd h hne
  | cons c rest ih =>
    by_cases hc : wsChar c
    · rcases List.infix_cons_iff.mp h with hp | hi
      · cases pat with
        | nil => exact absurd rfl hne
        | cons p ps =>
          obtain ⟨t, ht⟩ := hp
          have hpc : p = c := by
            have := congrArg (List.head?) ht
            simpa using this
          have hfalse : wsChar p = false := hws p (List.mem_cons_self _ _)
          rw [hpc] at hfalse
          rw [hfalse] at hc
          exact absurd hc (by simp)
      · have := ih hi
        simpa [List.dropWhile_cons, hc] using this
    · simpa [List.dropWhile_cons, hc] using h

/-- `jsTrim` is an infix of the original list. -/
theorem jsTrim_isInfix (l : List Char) : jsTrim l <:+: l := by
  have h2 : jsTrim l <+: l.dropWhile wsChar := by
    have hA : (l.dropWhile wsChar).reverse.dropWhile wsChar <:+ (l.dropWhile wsChar).reverse :=
      List.dropWhile_suffix _
    have := List.reverse_prefix.mpr hA
    simpa [jsTrim] using this
  exact h2.isInfix.trans (List.dropWhile_suffix wsChar).isInfix

/-- Trimming cannot create or destroy an occurrence of a nonempty
whitespace-free pattern. -/
theorem isInfix_jsTrim_iff {pat : List Char} (l : List Char)
    (hne : pat ≠ []) (hws : ∀ c ∈ pat, wsChar c = false) :
    pat <:+: jsTrim l ↔ pat <:+: l := by
  constructor
  · intro h
    exact h.trans (jsTrim_isInfix l)
  · intro h
    have h1 : pat <:+: l.dropWhile wsChar := isInfix_dropWhile_of_isInfix hne hws h
    have h2 : pat.reverse <:+: (l.dropWhile wsChar).reverse := by
      rw [ List.reverse_infix]; exact h1
    have hne2 : pat.reverse ≠ [] := by
      intro hcon
      exact hne (by simpa using congrArg List.reverse hcon)
    have hws2 : ∀ c ∈ pat.reverse, wsChar c = false := fun c hc =>
      hws c (List.mem_reverse.mp hc)
    have h3 : pat.reverse <:+: ((l.dropWhile wsChar).reverse.dropWhile wsChar) :=
      isInfix_dropWhile_of_isInfix hne2 hws2 h2
    have h4 := List.reverse_infix.mpr h3
    simpa [jsTrim] using h4

/-- Key bridge for claim C1: `includes` after `trim` agrees with `includes`
without `trim` for the pattern `"yes"`. -/
theorem jsIncludes_jsTrim_yes (l : List Char) :
    jsIncludes (jsTrim l) "yes".toList = jsIncludes l "yes".toList := by
  rcases h : jsIncludes l "yes".toList with _ | _
  · rcases h2 : jsIncludes (jsTrim l) "yes".toList with _ | _
    · rfl
    · exfalso
      have := (jsIncludes_iff _ _).mp h2
      have := (isInfix_jsTrim_iff l (by decide) (by decide)).mp this
      rw [← jsIncludes_iff] at this
      rw [h] at this
      exact Bool.false_ne_true this
  · have := (jsIncludes_iff _ _).mp h
    have := (isInfix_jsTrim_iff l (by decide) (by decide)).mpr this
    rw [← jsIncludes_iff] at this
    rw [this]

/-! ## Claim C2 (streaming decoder on the split-marker delta sequence) -/

/-- C2, counterexample.  For the delta sequence
`["<thi", "nk>hidden reasoning</thi", "nk> Hello", ", world"]` the decoder
does NOT emit `"Hello, world"`: the first delta makes the trimmed buffer
non-empty but it is only a proper prefix of the `<think>` marker, so the
`startsWith('<think>')` test fails and the decoder enters `STREAMING`,
emitting the whole buffer — think block included. -/
theorem c2_split_marker_counterexample :
    decodedText ["<thi", "nk>hidden reasoning</thi", "nk> Hello", ", world"]
        = "<think>hidden reasoning</think> Hello, world".toList
      ∧ decodedText ["<thi", "nk>hidden reasoning</thi", "nk> Hello", ", world"]
        ≠ "Hello, world".toList := by
  exact ⟨by decide, by decide⟩

/-- C2, amended.  For the given split-marker delta sequence the emitted
visible deltas concatenate to the full raw text
`"<think>hidden reasoning</think> Hello, world"` (the think block leaks,
because the opening marker is split across deltas and the decoder decides
its state at the first non-blank buffer).  When the opening marker arrives
unsplit — same content, deltas
`["<think>hidden reasoning</thi", "nk> Hello", ", world"]` — the decoder
emits exactly `"Hello, world"`, with no leading whitespace and no think
content. -/
theorem c2_decoder_behavior :
    decodedText ["<thi", "nk>hidden reasoning</thi", "nk> Hello", ", world"]
        = "<think>hidden reasoning</think> Hello, world".toList
      ∧ decodedText ["<think>hidden reasoning</thi", "nk> Hello", ", world"]
        = "Hello, world".toList := by
  exact ⟨by decide, by decide⟩

/-! ## Claim C6 (cancellation of a superseded attempt) -/

/-- C6, code bug.  Because `abort` is called with the string
`'New request initiated'`, the aborted fetch rejects with that string, whose
`.name` is not `'AbortError'`; the aborted first attempt therefore takes the
generic error branch and records a `status = error` entry over the latest
history entry (contradicting the claim that an aborted attempt never records
`error` and causes no history mutation).  After the second attempt finishes,
the pair's history holds two entries: the first attempt's stale `loading`
entry and the second attempt's terminal result. -/
theorem c6_abort_records_error :
    jsErrorName (abortReasonOf (some "New request initiated".toList))
        ≠ some "AbortError".toList
      ∧ ((raceTrace (.strD "ok".toList)).take 3).foldl applyHistOp []
        = [loadingResult "p",
           { promptId := "p", status := .error, data := .noData, error := none }]
      ∧ raceHistory (.strD "ok".toList)
        = [loadingResult "p",
           { promptId := "p", status := .success, data := .strD "ok".toList, error := none }] := by
  refine ⟨by decide, by decide, by decide⟩

/-! ## Store and engine lemmas -/

theorem getHist_setHist_self (res : Results) (pid : String) (h : List AnalysisResult) :
    getHist (setHist res pid h) pid = h := by
  simp [getHist, setHist]

theorem getHist_setHist_ne (res : Results) (pid q : String) (h : List AnalysisResult)
    (hne : q ≠ pid) : getHist (setHist res pid h) q = getHist res q := by
  simp [getHist, setHist, hne]

theorem setHist_setHist (res : Results) (pid : String) (h1 h2 : List AnalysisResult) :
    setHist (setHist res pid h1) pid h2 = setHist res pid h2 := by
  funext q
  by_cases hq : q = pid <;> simp [setHist, hq]

theorem sliceConcat_append (h : List AnalysisResult) (a r : AnalysisResult) :
    sliceConcat (h ++ [a]) r = h ++ [r] := by
  simp [sliceConcat, List.dropLast_concat]

/-- One `runSinglePrompt` invocation always issues exactly one model request,
logs the prompt id, appends exactly one terminal entry to that prompt's
history (the transient `loading` entry is replaced in place), and touches no
other key. -/
theorem runSinglePromptM_spec (o : Oracle) (p : Prompt) (st : EngineState) :
    ∃ r : AnalysisResult,
      (runSinglePromptM o p st).2 = some r ∧
      r.promptId = p.id ∧
      (r.status = .success ∨ r.status = .error) ∧
      (runSinglePromptM o p st).1.results
        = setHist st.results p.id (getHist st.results p.id ++ [r]) ∧
      (runSinglePromptM o p st).1.networkCalls = st.networkCalls + 1 ∧
      (runSinglePromptM o p st).1.callLog = st.callLog ++ [p.id] := by
  have hfin : ∀ r : AnalysisResult,
      setHist (setHist st.results p.id (getHist st.results p.id ++ [loadingResult p.id])) p.id
          (sliceConcat (getHist st.results p.id ++ [loadingResult p.id]) r)
        = setHist st.results p.id (getHist st.results p.id ++ [r]) := by
    intro r
    rw [sliceConcat_append, setHist_setHist]
  cases hp : p.type <;> simp only [runSinglePromptM, hp]
  case text =>
    cases hs : runStream (o.streamEvents p.id) with
    | ok txt =>
      exact ⟨{ promptId := p.id, status := .success, data := .strD (jsTrim txt), error := none },
        rfl, rfl, Or.inl rfl, hfin _, rfl, rfl⟩
    | error e =>
      exact ⟨{ promptId := p.id, status := .error, data := .noData, error := some e },
        rfl, rfl, Or.inr rfl, hfin _, rfl, rfl⟩
  all_goals
    cases hr : o.reply p.id with
    | error e =>
      exact ⟨{ promptId := p.id, status := .error, data := .noData, error := some e },
        rfl, rfl, Or.inr rfl, hfin _, rfl, rfl⟩
    | ok raw =>
      dsimp only
      cases hc : coerceSingleShot p o.jsonParse raw with
      | ok d =>
        exact ⟨{ promptId := p.id, status := .success, data := d, error := none },
          rfl, rfl, Or.inl rfl, hfin _, rfl, rfl⟩
      | error e =>
        exact ⟨{ promptId := p.id, status := .error, data := .noData, error := some e },
          rfl, rfl, Or.inr rfl, hfin _, rfl, rfl⟩

theorem runChildren_snd (o : Oracle) (children : List Prompt) (st : EngineState) :
    (runChildren o children st).2 = children.map (·.id) := by
  have key : ∀ (cs : List Prompt) (st0 : EngineState) (l : List String),
      (cs.foldl (fun acc c => ((runSinglePromptM o c acc.1).1, acc.2 ++ [c.id])) (st0, l)).2
        = l ++ cs.map (·.id) := by
    intro cs
    induction cs with
    | nil => intro st0 l; simp
    | cons c rest ih =>
      intro st0 l
      simp only [List.foldl_cons]
      rw [ih]
      simp
  simpa [runChildren] using key children st []

theorem runChildren_callLog (o : Oracle) (children : List Prompt) (st : EngineState) :
    (runChildren o children st).1.callLog = st.callLog ++ children.map (·.id) := by
  have key : ∀ (cs : List Prompt) (st0 : EngineState) (l : List String),
      (cs.foldl (fun acc c => ((runSinglePromptM o c acc.1).1, acc.2 ++ [c.id])) (st0, l)).1.callLog
        = st0.callLog ++ cs.map (·.id) := by
    intro cs
    induction cs with
    | nil => intro st0 l; simp
    | cons c rest ih =>
      intro st0 l
      simp only [List.foldl_cons]
      rw [ih]
      obtain ⟨r, -, -, -, -, -, hlog⟩ := runSinglePromptM_spec o c st0
      rw [hlog]
      simp
  simpa [runChildren] using key children st []

theorem runChildren_results_ne (o : Oracle) (children : List Prompt) (st : EngineState)
    (q : String) (hq : ∀ c ∈ children, c.id ≠ q) :
    getHist (runChildren o children st).1.results q = getHist st.results q := by
  have key : ∀ (cs : List Prompt) (st0 : EngineState) (l : List String),
      (∀ c ∈ cs, c.id ≠ q) →
      getHist (cs.foldl (fun acc c => ((runSinglePromptM o c acc.1).1, acc.2 ++ [c.id])) (st0, l)).1.results q
        = getHist st0.results q := by
    intro cs
    induction cs with
    | nil => intro st0 l _; simp
    | cons c rest ih =>
      intro st0 l hcs
      simp only [List.foldl_cons]
      rw [ih _ _ (fun x hx => hcs x (List.mem_cons_of_mem _ hx))]
      obtain ⟨r, -, -, -, hres, -, -⟩ := runSinglePromptM_spec o c st0
      rw [hres]
      exact getHist_setHist_ne _ _ _ _ (fun hqc => hcs c (List.mem_cons_self _ _) hqc.symm)
  simpa [runChildren] using key children st [] hq

/-! Reduction of `handlePromptCompletion` under each parent-type guard. -/

theorem handle_yesNo_eq (prompts : List Prompt) (o : Oracle) (p : Prompt)
    (result : AnalysisResult) (st : EngineState) (s : List Char)
    (htype : p.type = .yesNo) (hstatus : result.status = .success)
    (hdata : result.data = .strD s) :
    handlePromptCompletionM prompts o p result st
      = runChildren o (yesNoChildren prompts p.id
          (if jsIncludes (jsTrim (jsLower s)) "yes".toList then .yes else .no) st.results) st := by
  simp [handlePromptCompletionM, htype, hstatus, hdata]

theorem handle_score_eq (prompts : List Prompt) (o : Oracle) (p : Prompt)
    (result : AnalysisResult) (st : EngineState) (n : JSNum)
    (htype : p.type = .score) (hstatus : result.status = .success)
    (hdata : result.data = .numD n) :
    handlePromptCompletionM prompts o p result st
      = runChildren o (scoreChildren prompts p.id n st.results) st := by
  simp [handlePromptCompletionM, htype, hstatus, hdata]

theorem handle_bbox_eq (prompts : List Prompt) (o : Oracle) (p : Prompt)
    (result : AnalysisResult) (st : EngineState) (bs : List BBoxDet)
    (htype : p.type = .bbox) (hstatus : result.status = .success)
    (hdata : result.data = .boxesD bs) (hbs : bs ≠ []) :
    handlePromptCompletionM prompts o p result st
      = (if (bboxChildren prompts p.id st.results).isEmpty then (st, [])
         else ((bboxChildren prompts p.id st.results).foldl
                (fun acc c => processBboxChild o bs acc c) st,
               (bboxChildren prompts p.id st.results).map (·.id))) := by
  have hlen : bs.length > 0 := List.length_pos.mpr hbs
  simp [handlePromptCompletionM, htype, hstatus, hdata, hlen]

theorem handle_bbox_empty_eq (prompts : List Prompt) (o : Oracle) (p : Prompt)
    (result : AnalysisResult) (st : EngineState)
    (htype : p.type = .bbox) (hdata : result.data = .boxesD []) :
    handlePromptCompletionM prompts o p result st = (st, []) := by
  simp [handlePromptCompletionM, htype, hdata]

/-! ## Claim C1 (YesNo condition resolution) -/

/-- C1.  For a YesNo parent whose latest result is `success` with string
data, the condition value is `yes` precisely when the lowercased data
contains the substring `"yes"` (`no` otherwise), and the executed children
are exactly the direct children whose `condition` equals that value and
whose result history for the image is empty — children with the other
condition are not executed. -/
theorem c1_yesno_condition_children
    (prompts : List Prompt) (o : Oracle) (p : Prompt) (result : AnalysisResult)
    (st : EngineState) (s : List Char)
    (htype : p.type = .yesNo) (hstatus : result.status = .success)
    (hdata : result.data = .strD s) :
    (handlePromptCompletionM prompts o p result st).2 =
      (prompts.filter (fun c =>
        decide (c.parentId = some p.id) &&
          decide (c.condition
            = some (if jsIncludes (jsLower s) "yes".toList then Condition.yes else Condition.no)) &&
          decide (getHist st.results c.id = []))).map (·.id) := by
  rw [handle_yesNo_eq prompts o p result st s htype hstatus hdata, runChildren_snd,
      yesNoChildren, jsIncludes_jsTrim_yes]

/-- C1, witness: a parent answered `"Sure, YES!"` executes exactly the
pending `yes`-child. -/
theorem c1_yesno_condition_children_witness :
    (handlePromptCompletionM [wChildY, wChildN] oracleA wYesP wYesR stEmpty).2 = ["cy"] := by
  rw [c1_yesno_condition_children [wChildY, wChildN] oracleA wYesP wYesR stEmpty
    "Sure, YES!".toList rfl rfl rfl]
  decide

/-- C4.  For a Score parent whose latest result is `success` with numeric
data `d`, a pending direct child with operator `above` and value `v` is
executed precisely when `d > v`; one with operator `below` precisely when
`d < v`; and at `d = v` the child is not executed whatever its operator. -/
theorem c4_score_condition
    (prompts : List Prompt) (o : Oracle) (p c : Prompt) (result : AnalysisResult)
    (st : EngineState) (d v : ℚ)
    (hnd : (prompts.map (·.id)).Nodup)
    (htype : p.type = .score) (hstatus : result.status = .success)
    (hdata : result.data = .numD (.num d))
    (hmem : c ∈ prompts) (hpar : c.parentId = some p.id)
    (hpend : getHist st.results c.id = [])
    (hval : c.scoreConditionValue = some (.num v)) :
    (c.scoreConditionOperator = some .above →
        (c.id ∈ (handlePromptCompletionM prompts o p result st).2 ↔ v < d))
      ∧ (c.scoreConditionOperator = some .below →
        (c.id ∈ (handlePromptCompletionM prompts o p result st).2 ↔ d < v))
      ∧ (d = v → c.id ∉ (handlePromptCompletionM prompts o p result st).2) := by
  rw [handle_score_eq prompts o p result st _ htype hstatus hdata, runChildren_snd,
    scoreChildren]
  have hmemiff : ∀ pred : Prompt → Bool,
      c.id ∈ (prompts.filter pred).map (·.id) ↔ pred c = true := by
    intro pred
    constructor
    · intro hin
      obtain ⟨c2, hc2, hceq⟩ := List.mem_map.mp hin
      obtain ⟨hc2mem, hc2pred⟩ := List.mem_filter.mp hc2
      have hcc : c2 = c := List.inj_on_of_nodup_map hnd hc2mem hmem hceq
      rwa [hcc] at hc2pred
    · intro hpred
      exact List.mem_map.mpr ⟨c, List.mem_filter.mpr ⟨hmem, hpred⟩, rfl⟩
  refine ⟨?_, ?_, ?_⟩
  · intro hop
    rw [hmemiff]
    simp [hpar, hpend, hop, hval, jsGt, jsLt]
  · intro hop
    rw [hmemiff]
    simp [hpar, hpend, hop, hval, jsGt, jsLt]
  · intro hdv
    rw [hmemiff]
    subst hdv
    cases hop : c.scoreConditionOperator with
    | none => simp [hpar, hpend, hop, hval]
    | some op => cases op <;> simp [hpar, hpend, hop, hval, jsGt, jsLt]

/-- C4, witness: parent score `5`, threshold `3`: the `above`-child runs
(`5 > 3`), the `below`-child does not, and a score equal to the threshold
triggers neither. -/
theorem c4_score_condition_witness :
    ((wAbove.scoreConditionOperator = some .above →
        (wAbove.id ∈ (handlePromptCompletionM [wAbove, wBelow] oracleA wScoreP wScoreR stEmpty).2
          ↔ (3 : ℚ) < 5))
      ∧ (wAbove.scoreConditionOperator = some .below →
        (wAbove.id ∈ (handlePromptCompletionM [wAbove, wBelow] oracleA wScoreP wScoreR stEmpty).2
          ↔ (5 : ℚ) < 3))
      ∧ ((5 : ℚ) = 3 →
        wAbove.id ∉ (handlePromptCompletionM [wAbove, wBelow] oracleA wScoreP wScoreR stEmpty).2)) :=
  c4_score_condition [wAbove, wBelow] oracleA wScoreP wAbove wScoreR stEmpty 5 3
    (by decide) rfl rfl rfl (by decide) rfl rfl rfl

theorem fetchBboxChildModel_parentBox (o : Oracle) (c : Prompt) (i : Nat) (bb : BBoxDet) :
    (fetchBboxChildModel o c i bb).parentBox = bb := by
  unfold fetchBboxChildModel
  cases o.bboxReply c.id i with
  | ok raw =>
    dsimp only
    split <;> rfl
  | error msg => rfl

theorem processBboxChild_getHist_self (o : Oracle) (bs : List BBoxDet)
    (st : EngineState) (c : Prompt) :
    getHist (processBboxChild o bs st c).results c.id = [bboxDone o bs c] := by
  simp [processBboxChild, bboxDone, getHist_setHist_self]

theorem processBboxChild_getHist_ne (o : Oracle) (bs : List BBoxDet)
    (st : EngineState) (c : Prompt) (q : String) (hne : q ≠ c.id) :
    getHist (processBboxChild o bs st c).results q = getHist st.results q := by
  simp [processBboxChild, getHist_setHist_ne _ _ _ _ hne]

theorem foldBbox_getHist_notMem (o : Oracle) (bs : List BBoxDet) (L : List Prompt)
    (st : EngineState) (q : String) (hq : ∀ c ∈ L, c.id ≠ q) :
    getHist (L.foldl (fun acc x => processBboxChild o bs acc x) st).results q
      = getHist st.results q := by
  induction L generalizing st with
  | nil => rfl
  | cons x rest ih =>
    simp only [List.foldl_cons]
    rw [ih _ (fun c hc => hq c (List.mem_cons_of_mem _ hc))]
    exact processBboxChild_getHist_ne o bs st x q
      (fun h => hq x (List.mem_cons_self _ _) h.symm)

theorem foldBbox_getHist_mem (o : Oracle) (bs : List BBoxDet) (L : List Prompt)
    (st : EngineState) (c : Prompt) (hc : c ∈ L) (hnd : (L.map (·.id)).Nodup) :
    getHist (L.foldl (fun acc x => processBboxChild o bs acc x) st).results c.id
      = [bboxDone o bs c] := by
  induction L generalizing st with
  | nil => cases hc
  | cons x rest ih =>
    simp only [List.foldl_cons]
    have hnd2 : (x.id :: rest.map (·.id)).Nodup := by simpa using hnd
    rcases List.mem_cons.mp hc with hcx | hcr
    · subst hcx
      have hnot : ∀ y ∈ rest, y.id ≠ c.id := by
        intro y hy heq
        exact (List.nodup_cons.mp hnd2).1 (heq ▸ List.mem_map.mpr ⟨y, hy, rfl⟩)
      rw [foldBbox_getHist_notMem o bs rest _ c.id hnot]
      exact processBboxChild_getHist_self o bs st c
    · exact ih _ hcr (List.nodup_cons.mp hnd2).2

/-! ## Claim C3 (BoundingBox fan-out: empty and non-empty detection arrays) -/

/-- C3.  For a BoundingBox parent whose latest result is `success`: with an
empty detection array nothing runs and the state is untouched; with `N > 0`
detections every pending direct child is executed exactly once and its final
history is a single `success` entry holding exactly `N` `BboxChildResult`
entries, the `i`-th keyed to the `i`-th detection (its label and box). -/
theorem c3_bbox_fanout
    (prompts : List Prompt) (o : Oracle) (p c : Prompt) (result : AnalysisResult)
    (st : EngineState) (bs : List BBoxDet)
    (hnd : (prompts.map (·.id)).Nodup)
    (htype : p.type = .bbox) (hstatus : result.status = .success)
    (hdata : result.data = .boxesD bs)
    (hmem : c ∈ prompts) (hpar : c.parentId = some p.id)
    (hpend : getHist st.results c.id = []) :
    (bs = [] → handlePromptCompletionM prompts o p result st = (st, []))
    ∧ (bs ≠ [] →
        ((handlePromptCompletionM prompts o p result st).2).count c.id = 1
        ∧ ∃ rs : List BboxChildResult,
            getHist (handlePromptCompletionM prompts o p result st).1.results c.id
              = [{ promptId := c.id, status := .success, data := .childD rs, error := none }]
            ∧ rs.length = bs.length
            ∧ ∀ i : Nat, (rs.get? i).map (·.parentBox) = bs.get? i) := by
  constructor
  · intro hbs
    subst hbs
    exact handle_bbox_empty_eq prompts o p result st htype hdata
  · intro hbs
    rw [handle_bbox_eq prompts o p result st bs htype hstatus hdata hbs]
    have hcmem : c ∈ bboxChildren prompts p.id st.results :=
      List.mem_filter.mpr ⟨hmem, by simp [hpar, hpend]⟩
    have hne : ¬ ((bboxChildren prompts p.id st.results).isEmpty = true) := by
      rw [List.isEmpty_iff]
      intro h
      rw [h] at hcmem
      cases hcmem
    rw [if_neg hne]
    have hndc : ((bboxChildren prompts p.id st.results).map (·.id)).Nodup :=
      List.Nodup.sublist (List.Sublist.map _ (List.filter_sublist prompts)) hnd
    constructor
    · exact List.count_eq_one_of_mem hndc (List.mem_map.mpr ⟨c, hcmem, rfl⟩)
    · refine ⟨bs.enum.map (fun e => fetchBboxChildModel o c e.1 e.2), ?_, ?_, ?_⟩
      · exact foldBbox_getHist_mem o bs _ st c hcmem hndc
      · simp [List.enum_length]
      · intro i
        rw [List.get?_map, List.get?_enum]
        cases hbi : bs.get? i with
        | none => rfl
        | some bb => simp [fetchBboxChildModel_parentBox]

/-- C3, witness: two detections, one pending child. -/
theorem c3_bbox_fanout_witness :
    (([wDet1, wDet2] : List BBoxDet) = [] →
        handlePromptCompletionM [wBoxChild] oracleA wBoxP wBoxR stEmpty = (stEmpty, []))
    ∧ (([wDet1, wDet2] : List BBoxDet) ≠ [] →
        ((handlePromptCompletionM [wBoxChild] oracleA wBoxP wBoxR stEmpty).2).count "bc" = 1
        ∧ ∃ rs : List BboxChildResult,
            getHist (handlePromptCompletionM [wBoxChild] oracleA wBoxP wBoxR stEmpty).1.results "bc"
              = [{ promptId := "bc", status := .success, data := .childD rs, error := none }]
            ∧ rs.length = ([wDet1, wDet2] : List BBoxDet).length
            ∧ ∀ i : Nat, (rs.get? i).map (·.parentBox) = ([wDet1, wDet2] : List BBoxDet).get? i) :=
  c3_bbox_fanout [wBoxChild] oracleA wBoxP wBoxChild wBoxR stEmpty [wDet1, wDet2]
    (by decide) rfl rfl rfl (by decide) rfl rfl

/-! ## Claim C9 (per-object failure is not batch-fatal) -/

/-- C9.  During fan-out, when the per-object call for detection `i` fails,
the child still reaches a single `success` entry with one `BboxChildResult`
per detection; entry `i` carries the error marker string and is keyed to its
detection, and every other entry is the ordinary per-object outcome. -/
theorem c9_fanout_partial_failure
    (prompts : List Prompt) (o : Oracle) (p c : Prompt) (result : AnalysisResult)
    (st : EngineState) (bs : List BBoxDet) (i : Nat) (msg : List Char)
    (hnd : (prompts.map (·.id)).Nodup)
    (htype : p.type = .bbox) (hstatus : result.status = .success)
    (hdata : result.data = .boxesD bs) (hbs : bs ≠ [])
    (hmem : c ∈ prompts) (hpar : c.parentId = some p.id)
    (hpend : getHist st.results c.id = [])
    (hfail : o.bboxReply c.id i = .error msg) (hib : i < bs.length) :
    ∃ rs : List BboxChildResult,
      getHist (handlePromptCompletionM prompts o p result st).1.results c.id
        = [{ promptId := c.id, status := .success, data := .childD rs, error := none }]
      ∧ rs.length = bs.length
      ∧ rs.get? i = (bs.get? i).map (fun bb =>
          { parentBox := bb, resultData := .strD ("Error: ".toList ++ msg) })
      ∧ ∀ j : Nat, rs.get? j = (bs.get? j).map (fun bb => fetchBboxChildModel o c j bb) := by
  rw [handle_bbox_eq prompts o p result st bs htype hstatus hdata hbs]
  have hcmem : c ∈ bboxChildren prompts p.id st.results :=
    List.mem_filter.mpr ⟨hmem, by simp [hpar, hpend]⟩
  have hne : ¬ ((bboxChildren prompts p.id st.results).isEmpty = true) := by
    rw [List.isEmpty_iff]
    intro h
    rw [h] at hcmem
    cases hcmem
  rw [if_neg hne]
  have hndc : ((bboxChildren prompts p.id st.results).map (·.id)).Nodup :=
    List.Nodup.sublist (List.Sublist.map _ (List.filter_sublist prompts)) hnd
  have hget : ∀ j : Nat,
      (bs.enum.map (fun e => fetchBboxChildModel o c e.1 e.2)).get? j
        = (bs.get? j).map (fun bb => fetchBboxChildModel o c j bb) := by
    intro j
    rw [List.get?_map, List.get?_enum]
    cases bs.get? j <;> rfl
  refine ⟨bs.enum.map (fun e => fetchBboxChildModel o c e.1 e.2), ?_, ?_, ?_, hget⟩
  · exact foldBbox_getHist_mem o bs _ st c hcmem hndc
  · simp [List.enum_length]
  · rw [hget i]
    cases hbi : bs.get? i with
    | none =>
      rw [List.get?_eq_none] at hbi
      omega
    | some bb => simp [fetchBboxChildModel, hfail]

/-- C9, witness: the per-object call for detection 0 fails with message
`"boom"`; the batch still succeeds with two entries. -/
theorem c9_fanout_partial_failure_witness :
    ∃ rs : List BboxChildResult,
      getHist (handlePromptCompletionM [wBoxChild] oracleA wBoxP wBoxR stEmpty).1.results "bc"
        = [{ promptId := "bc", status := .success, data := .childD rs, error := none }]
      ∧ rs.length = ([wDet1, wDet2] : List BBoxDet).length
      ∧ rs.get? 0 = (([wDet1, wDet2] : List BBoxDet).get? 0).map (fun bb =>
          { parentBox := bb, resultData := .strD ("Error: ".toList ++ "boom".toList) })
      ∧ ∀ j : Nat, rs.get? j = (([wDet1, wDet2] : List BBoxDet).get? j).map
          (fun bb => fetchBboxChildModel oracleA wBoxChild j bb) :=
  c9_fanout_partial_failure [wBoxChild] oracleA wBoxP wBoxChild wBoxR stEmpty
    [wDet1, wDet2] 0 "boom".toList (by decide) rfl rfl rfl (by decide) (by decide) rfl rfl
    rfl (by decide)

/-! ## No-numeral lemmas (claim C10) -/

theorem mem_jsTrim {c : Char} {l : List Char} (h : c ∈ jsTrim l) : c ∈ l :=
  (jsTrim_isInfix l).subset h

theorem mem_jsTrimStart {c : Char} {l : List Char} (h : c ∈ jsTrimStart l) : c ∈ l :=
  (List.dropWhile_sublist wsChar).subset h

/-- `stripThinking` only removes characters. -/
theorem mem_stripThinking {c : Char} {l : List Char} (h : c ∈ stripThinking l) : c ∈ l := by
  unfold stripThinking at h
  rcases h1 : indexOfSub thinkOpen l with _ | i
  · rw [h1] at h
    exact mem_jsTrim h
  · rw [h1] at h
    dsimp only at h
    rcases h2 : indexOfSub thinkClose (l.drop (i + thinkOpen.length)) with _ | j
    · rw [h2] at h
      exact mem_jsTrim h
    · rw [h2] at h
      have h3 := mem_jsTrim h
      rcases List.mem_append.mp h3 with h4 | h4
      · exact List.take_subset _ _ h4
      · exact List.drop_subset _ _ (List.drop_subset _ _ (mem_jsTrimStart h4))

theorem matchDigitsDot_eq_none {l : List Char} (h : ∀ c ∈ l, c.isDigit = false) :
    matchDigitsDot l = none := by
  cases l with
  | nil => rfl
  | cons c rest => simp [matchDigitsDot, h c (List.mem_cons_self _ _)]

theorem matchNumAt_eq_none {l : List Char} (h : ∀ c ∈ l, c.isDigit = false) :
    matchNumAt l = none := by
  cases l with
  | nil => rfl
  | cons c rest =>
    by_cases hc : c = '-'
    · simp [matchNumAt, hc,
        matchDigitsDot_eq_none (fun x hx => h x (List.mem_cons_of_mem _ hx))]
    · simp [matchNumAt, hc, matchDigitsDot_eq_none h]

theorem findNumeral_eq_none {l : List Char} (h : ∀ c ∈ l, c.isDigit = false) :
    findNumeral l = none := by
  induction l with
  | nil => rfl
  | cons c rest ih =>
    rw [findNumeral, matchNumAt_eq_none h]
    exact ih (fun x hx => h x (List.mem_cons_of_mem _ hx))

theorem extractNumber_eq_nan {l : List Char} (h : ∀ c ∈ l, c.isDigit = false) :
    extractNumber l = .nan := by
  rw [extractNumber, findNumeral_eq_none h]

theorem jsGt_nan_left (v : JSNum) : jsGt .nan v = false := by cases v <;> rfl

theorem jsLt_nan_left (v : JSNum) : jsLt .nan v = false := by cases v <;> rfl

/-- With a `NaN` score no conditional child is ever eligible. -/
theorem scoreChildren_nan (prompts : List Prompt) (pid : String) (res : Results) :
    scoreChildren prompts pid .nan res = [] := by
  rw [scoreChildren]
  rw [List.filter_eq_nil_iff]
  intro c _
  cases hop : c.scoreConditionOperator with
  | none => simp [hop]
  | some op => cases hval : c.scoreConditionValue with
    | none => simp [hop, hval]
    | some v => simp [hop, hval, jsGt_nan_left, jsLt_nan_left]

/-- C10.  A Number or Score prompt whose reply contains no decimal numeral
(no digit at all) still terminates with `status = success` and data `NaN`;
and a Score parent whose latest success data is `NaN` makes no conditional
child (any operator, any threshold) eligible, both strict comparisons
against `NaN` being false. -/
theorem c10_nan_soft_failure
    (o : Oracle) (p : Prompt) (st : EngineState) (raw : List Char)
    (prompts : List Prompt) (q : Prompt) (res : AnalysisResult) (st2 : EngineState)
    (htype : p.type = .number ∨ p.type = .score)
    (hreply : o.reply p.id = .ok raw)
    (hnodigit : ∀ c ∈ raw, c.isDigit = false)
    (hq : q.type = .score) (hres : res.status = .success)
    (hdata : res.data = .numD .nan) :
    (runSinglePromptM o p st).2 =
        some { promptId := p.id, status := .success, data := .numD .nan, error := none }
      ∧ (handlePromptCompletionM prompts o q res st2).2 = [] := by
  constructor
  · have hstrip : ∀ c ∈ stripThinking raw, c.isDigit = false :=
      fun c hc => hnodigit c (mem_stripThinking hc)
    have hcoerce : coerceSingleShot p o.jsonParse raw = .ok (.numD .nan) := by
      rcases htype with ht | ht <;>
        simp [coerceSingleShot, ht, extractNumber_eq_nan hstrip]
    rcases htype with ht | ht <;>
      simp [runSinglePromptM, ht, hreply, hcoerce]
  · rw [handle_score_eq prompts o q res st2 .nan hq hres hdata, scoreChildren_nan]
    simp [runChildren]

/-- C10, witness: reply `"maybe"` (no digit) for a Number prompt; a `NaN`
Score parent with an `above`-child. -/
theorem c10_nan_soft_failure_witness :
    (runSinglePromptM oracleA wNumP stEmpty).2 =
        some { promptId := "np", status := .success, data := .numD .nan, error := none }
      ∧ (handlePromptCompletionM [wAbove] oracleA wScoreP wNanR stEmpty).2 = [] :=
  c10_nan_soft_failure oracleA wNumP stEmpty "maybe".toList [wAbove] wScoreP wNanR stEmpty
    (Or.inl rfl) rfl (by decide) rfl rfl rfl

/-- C7, counterexample.  `deletePrompt` collects only the DIRECT children:
deleting the root of a three-level chain leaves the grandchild's prompt in
the tree and its stored history for the image intact, contradicting the
claimed transitive cascade. -/
theorem c7_grandchild_counterexample :
    wDelG ∈ (deletePromptM [wDelP, wDelC, wDelG] wDelRes "dp").1
      ∧ getHistAll (deletePromptM [wDelP, wDelC, wDelG] wDelRes "dp").2 "img1" "dg"
          = [wDelEntry "dg"] :=
  ⟨by decide, by decide⟩

/-- C7, amended.  Deleting a prompt removes, for every image, the stored
result histories of the prompt itself and of its direct children only (and
removes exactly those prompts from the tree); the histories of all other
prompts — deeper descendants included — are left unchanged.  In particular a
parent with two direct children loses all three histories on every image. -/
theorem c7_delete_cascade_direct
    (prompts : List Prompt) (allRes : AllResults) (pid img q : String) :
    (q ∈ pid :: (prompts.filter (fun x => decide (x.parentId = some pid))).map (·.id) →
        getHistAll (deletePromptM prompts allRes pid).2 img q = [])
      ∧ (q ∉ pid :: (prompts.filter (fun x => decide (x.parentId = some pid))).map (·.id) →
        getHistAll (deletePromptM prompts allRes pid).2 img q = getHistAll allRes img q)
      ∧ (deletePromptM prompts allRes pid).1
        = prompts.filter (fun x =>
            !((pid :: (prompts.filter (fun y => decide (y.parentId = some pid))).map (·.id)).contains
              x.id)) := by
  refine ⟨?_, ?_, rfl⟩
  · intro hq
    simp [deletePromptM, getHistAll, getHist, List.contains, List.elem_eq_mem, hq]
  · intro hq
    simp [deletePromptM, getHistAll, getHist, List.contains, List.elem_eq_mem, hq]

/-- C7, witness: a parent with two direct children; after deletion all three
histories are gone for the image, while an unrelated prompt id keeps its
(empty) history untouched. -/
theorem c7_delete_cascade_direct_witness :
    getHistAll (deletePromptM [wDelP, wDelC, wDelC2] wDelRes "dp").2 "img1" "dc" = []
      ∧ getHistAll (deletePromptM [wDelP, wDelC, wDelC2] wDelRes "dp").2 "img1" "dg"
          = getHistAll wDelRes "img1" "dg" :=
  ⟨(c7_delete_cascade_direct [wDelP, wDelC, wDelC2] wDelRes "dp" "img1" "dc").1 (by decide),
   (c7_delete_cascade_direct [wDelP, wDelC, wDelC2] wDelRes "dp" "img1" "dg").2.1 (by decide)⟩

theorem handle_error_eq (prompts : List Prompt) (o : Oracle) (p : Prompt)
    (result : AnalysisResult) (st : EngineState) (h : result.status = .error) :
    handlePromptCompletionM prompts o p result st = (st, []) := by
  simp [handlePromptCompletionM, h]

theorem handle_yesNo_cases (prompts : List Prompt) (o : Oracle) (p : Prompt)
    (result : AnalysisResult) (st : EngineState)
    (htype : p.type = .yesNo) (hstatus : result.status = .success) :
    (∃ s, result.data = .strD s)
      ∨ handlePromptCompletionM prompts o p result st = (st, []) := by
  cases hd : result.data
  case strD s => exact Or.inl ⟨s, rfl⟩
  all_goals
    right
    simp [handlePromptCompletionM, htype, hstatus, hd]

/-- C8, counterexample.  A YesNo parent whose answer is "Yes" and a single
`condition = no` child: the first pending run issues one request (the
parent's); the child stays pending (its trigger never fired), so the second
pending run re-queues the parent and issues one MORE request for it — the
second run is not free of network calls even though no prompt was added. -/
theorem c8_second_run_counterexample :
    c8run1.networkCalls = 1
      ∧ c8run2.networkCalls = 2
      ∧ c8run2.callLog = ["yp", "yp"] :=
  ⟨by decide, by decide, by decide⟩

/-- C8, amended.  Running the pending analysis is a complete no-op — zero
additional network calls, nothing changed — whenever every prompt already
has a non-empty result history.  (When conditional children remain pending
with a successful parent, the second run instead re-runs those parents, as
the counterexample shows.) -/
theorem c8_idempotent_when_no_pending
    (prompts : List Prompt) (o : Oracle) (st : EngineState)
    (h : ∀ p ∈ prompts, getHist st.results p.id ≠ []) :
    runPendingAnalysisM prompts o st = st := by
  have hfil : prompts.filter (fun p => decide (getHist st.results p.id = [])) = [] := by
    rw [List.filter_eq_nil_iff]
    intro p hp
    simp [h p hp]
  simp [runPendingAnalysisM, hfil]

/-- C8, witness: with the single prompt already answered, a pending run
changes nothing. -/
theorem c8_idempotent_when_no_pending_witness :
    runPendingAnalysisM [wYesP] oracleYes stFull = stFull :=
  c8_idempotent_when_no_pending [wYesP] oracleYes stFull (by decide)

/-! ## Claim C5 (re-queued successful parents are fully re-run) -/

/-- C5, counterexample.  An already-successful independent YesNo parent with
a pending child is re-queued by `runPendingAnalysis` — but processing the
re-queued parent goes through `runSingleAnalysisFlow` and `runSinglePrompt`,
which issue a fresh model request for the parent itself and append a new
entry to its result history, contradicting the claim that the parent's
history is left unchanged and no request is issued for it. -/
theorem c5_requeue_counterexample :
    getHist stFull.results "yp" = [wYesR]
      ∧ pendingTasks [wYesP, wChildN] stFull.results = [wYesP]
      ∧ (runPendingAnalysisM [wYesP, wChildN] oracleYes stFull).callLog.count "yp" = 1
      ∧ getHist (runPendingAnalysisM [wYesP, wChildN] oracleYes stFull).results "yp"
          ≠ [wYesR] :=
  ⟨by decide, by decide, by decide, by decide⟩

/-- C5, amended.  When a pending child's independent parent already has a
latest `success` result, the parent is re-queued — and it is fully
re-executed rather than skipped: whatever the model replies, exactly one new
request is issued for the parent itself and exactly one new terminal entry
is appended to its stored history; only then is the children's eligibility
evaluated against the fresh result. -/
theorem c5_requeue_reruns_parent (o : Oracle) :
    pendingTasks [wYesP, wChildN] stFull.results = [wYesP]
      ∧ ∃ rNew : AnalysisResult,
          (rNew.status = .success ∨ rNew.status = .error)
          ∧ getHist (runPendingAnalysisM [wYesP, wChildN] o stFull).results "yp"
              = [wYesR, rNew]
          ∧ (runPendingAnalysisM [wYesP, wChildN] o stFull).callLog.count "yp" = 1 := by
  refine ⟨by decide, ?_⟩
  have hpend : [wYesP, wChildN].filter
      (fun p => decide (getHist stFull.results p.id = [])) = [wChildN] := by decide
  have htasks : pendingTasks [wYesP, wChildN] stFull.results = [wYesP] := by decide
  have hrun : runPendingAnalysisM [wYesP, wChildN] o stFull
      = runSingleAnalysisFlowM [wYesP, wChildN] o wYesP stFull := by
    simp only [runPendingAnalysisM, hpend, htasks]
    simp
  rw [hrun]
  have hdesc : descendantIds [wYesP, wChildN] "yp" = ["cn"] := by decide
  rw [runSingleAnalysisFlowM]
  simp only [show wYesP.id = "yp" from rfl]
  rw [hdesc]
  simp only [List.isEmpty_cons, Bool.false_eq_true, if_false]
  set st1 : EngineState :=
    { stFull with results := removeHists stFull.results ["cn"] } with hst1
  obtain ⟨r, hr2, hrpid, hrstat, hres, hcalls, hlog⟩ := runSinglePromptM_spec o wYesP st1
  simp only [show wYesP.id = "yp" from rfl] at hrpid hres hlog
  have h1 : getHist st1.results "yp" = [wYesR] := by decide
  have hlog2 : (runSinglePromptM o wYesP st1).1.callLog = ["yp"] := by
    rw [hlog]
    decide
  have hhist2 : getHist (runSinglePromptM o wYesP st1).1.results "yp" = [wYesR, r] := by
    rw [hres]
    have h1b : getHist (removeHists stFull.results ["cn"]) "yp" = [wYesR] := by decide
    rw [h1b, getHist_setHist_self]
    rfl
  rw [hr2]
  dsimp only
  rcases hrstat with hsucc | herr
  · rcases handle_yesNo_cases [wYesP, wChildN] o wYesP r (runSinglePromptM o wYesP st1).1
        rfl hsucc with ⟨s, hds⟩ | heq
    · rw [handle_yesNo_eq [wYesP, wChildN] o wYesP r (runSinglePromptM o wYesP st1).1
        s rfl hsucc hds]
      simp only [show wYesP.id = "yp" from rfl]
      have hch : ∀ c ∈ yesNoChildren [wYesP, wChildN] "yp"
          (if jsIncludes (jsTrim (jsLower s)) "yes".toList then .yes else .no)
          (runSinglePromptM o wYesP st1).1.results, c.id ≠ "yp" := by
        intro c hc
        obtain ⟨hcmem, hcpred⟩ := List.mem_filter.mp hc
        rcases List.mem_cons.mp hcmem with hcp | hcp
        · subst hcp
          simp [wYesP] at hcpred
        · have : c = wChildN := by simpa using hcp
          subst this
          decide
      refine ⟨r, Or.inl hsucc, ?_, ?_⟩
      · rw [runChildren_results_ne o _ (runSinglePromptM o wYesP st1).1 "yp" hch]
        exact hhist2
      · rw [runChildren_callLog, hlog2, List.count_append]
        have hz : ((yesNoChildren [wYesP, wChildN] "yp"
            (if jsIncludes (jsTrim (jsLower s)) "yes".toList then .yes else .no)
            (runSinglePromptM o wYesP st1).1.results).map (·.id)).count "yp" = 0 := by
          rw [List.count_eq_zero]
          intro hmem
          obtain ⟨c, hc, hcid⟩ := List.mem_map.mp hmem
          exact hch c hc hcid
        rw [hz]
        decide
    · rw [heq]
      exact ⟨r, Or.inl hsucc, hhist2, by rw [hlog2]; decide⟩
  · rw [handle_error_eq [wYesP, wChildN] o wYesP r (runSinglePromptM o wYesP st1).1 herr]
    exact ⟨r, Or.inr herr, hhist2, by rw [hlog2]; decide⟩
